import Mathlib

/-!
Shallow embedding of the omegaml storage engine core (omegaml/store/base.py)
and proofs about its metadata catalog, key derivation, put/get/drop/list
operations.

Modelling conventions:
* Python dicts/lists/tuples and JSON-like payloads are the inductive `PyVal`;
  Python dicts are association lists with `dict.update` semantics (`dictUpdate`).
* The mongo database is `DBState`: the metadata catalog collection, the named
  data collections (a document is a payload plus its database-assigned `_id`),
  the gridfs blob namespace, and a fresh-id counter. mongoengine `save()`
  upserts by primary key (`saveMeta`), `objects(...).first()` is `List.find?`
  in insertion order.
* Strings are handled with executable list-of-characters functions mirroring
  Python `str.replace` (leftmost, non-overlapping), `str.endswith`,
  `str.startswith` and `fnmatch.fnmatch`.
* `re.match` (the regular-expression engine) is external to the repository and
  is abstracted as a Boolean-valued parameter of `OmegaStore.list`.
* Blob contents (hdf packaging, joblib dumps) are opaque: only the derived
  filename and the gridfs id are observable in the code under study.
-/

set_option autoImplicit false
set_option linter.unusedVariables false

namespace OmegaML

/-- JSON-like python value: payload of flat documents, rows, attributes. -/
inductive PyVal where
  | num (n : Int)
  | str (s : String)
  | arr (l : List PyVal)
  | dict (fields : List (String × PyVal))
deriving Repr

mutual

/-- Structural equality of python values (python `==` on JSON-like data). -/
def PyVal.beq : PyVal → PyVal → Bool
  | .num a, .num b => a == b
  | .str a, .str b => a == b
  | .arr a, .arr b => PyVal.beqL a b
  | .dict a, .dict b => PyVal.beqD a b
  | _, _ => false

def PyVal.beqL : List PyVal → List PyVal → Bool
  | [], [] => true
  | x :: xs, y :: ys => PyVal.beq x y && PyVal.beqL xs ys
  | _, _ => false

def PyVal.beqD : List (String × PyVal) → List (String × PyVal) → Bool
  | [], [] => true
  | (k, x) :: xs, (l, y) :: ys => k == l && PyVal.beq x y && PyVal.beqD xs ys
  | _, _ => false

end

/-- Caller-supplied attributes of a metadata record: a python dict. -/
abbrev Attrs := List (String × PyVal)

/-- Python `d[k] = v` on a dict kept as an association list: an existing key
(python dicts hold each key once) is updated in place, its position
preserved; a new key is appended. -/
def dictSet {α : Type} : List (String × α) → String → α → List (String × α)
  | [], k, v => [(k, v)]
  | p :: tl, k, v => if p.1 == k then (k, v) :: tl else p :: dictSet tl k v

/-- Python `d.update(u)`: every entry of `u` is set into `d` key by key. -/
def dictUpdate {α : Type} (d u : List (String × α)) : List (String × α) :=
  u.foldl (fun acc p => dictSet acc p.1 p.2) d

/-- Python `d.get(k)` on an association-list dict. -/
def assocLookup {α : Type} (d : List (String × α)) (k : String) : Option α :=
  (d.find? (fun p => p.1 == k)).map (·.2)

/-- Python `d.get(k)` on a `PyVal` document; `none` when the value is not a
dict or lacks the key. -/
def pyGet (v : PyVal) (k : String) : Option PyVal :=
  match v with
  | .dict fs => assocLookup fs k
  | _ => none

/-- One step list of Python `str.replace`: scan left to right, replace each
non-overlapping occurrence of `pat` by `rep`. The fuel argument (instantiated
with the string length, an upper bound on the number of steps) keeps the
recursion structural so that the function evaluates by `decide`/`rfl`. -/
def replaceAux (pat rep : List Char) : Nat → List Char → List Char
  | _, [] => []
  | 0, s => s
  | fuel + 1, c :: rest =>
    if pat ≠ [] ∧ pat.isPrefixOf (c :: rest)
    then rep ++ replaceAux pat rep fuel (List.drop (pat.length - 1) rest)
    else c :: replaceAux pat rep fuel rest

/-- Python `s.replace(pat, rep)` on character lists. -/
def replaceList (pat rep s : List Char) : List Char :=
  replaceAux pat rep s.length s

/-- Python `s.replace(pat, rep)`. -/
def strReplace (s pat rep : String) : String :=
  String.mk (replaceList pat.toList rep.toList s.toList)

/-- Python `s.endswith(suffix)`. -/
def pyEndsWith (s suffix : String) : Bool :=
  suffix.toList.isSuffixOf s.toList

/-- Python `s.startswith(p)`. -/
def pyStartsWith (s p : String) : Bool :=
  p.toList.isPrefixOf s.toList

/-- Membership of a character in a glob bracket set, with `a-z` ranges
(python `fnmatch` translates sets into regex character classes). -/
def inSet : List Char → Char → Bool
  | [], _ => false
  | a :: '-' :: b :: rest, c => (decide (a ≤ c) && decide (c ≤ b)) || inSet rest c
  | a :: rest, c => (a = c) || inSet rest c

/-- Scan a glob pattern up to the closing bracket of a character set. -/
def scanClose : List Char → Option (List Char × List Char)
  | [] => none
  | ']' :: t => some ([], t)
  | c :: t => (scanClose t).map (fun pr => (c :: pr.1, pr.2))

/-- Parse a glob character set after `[`: an optional leading `!` negates, a
leading `]` is part of the set, an unterminated set makes the `[` literal. -/
def splitSet (l : List Char) : Option (Bool × List Char × List Char) :=
  match l with
  | '!' :: ']' :: t => (scanClose t).map (fun pr => (true, ']' :: pr.1, pr.2))
  | '!' :: t => (scanClose t).map (fun pr => (true, pr.1, pr.2))
  | ']' :: t => (scanClose t).map (fun pr => (false, ']' :: pr.1, pr.2))
  | t => (scanClose t).map (fun pr => (false, pr.1, pr.2))

/-- Shell-glob matching of a whole string against a pattern, as python
`fnmatch` does it: `*` any sequence, `?` one character, `[...]`/`[!...]`
character sets. The fuel (pattern length plus string length plus one, every
step consumes at least one of the two) keeps the recursion structural. -/
def globAux : Nat → List Char → List Char → Bool
  | 0, _, _ => false
  | _ + 1, [], [] => true
  | _ + 1, [], _ :: _ => false
  | fuel + 1, '*' :: p, s =>
    globAux fuel p s || (match s with
      | [] => false
      | _ :: t => globAux fuel ('*' :: p) t)
  | fuel + 1, '?' :: p, s =>
    (match s with
      | [] => false
      | _ :: t => globAux fuel p t)
  | fuel + 1, '[' :: p, s =>
    (match splitSet p with
     | some (neg, set, p2) =>
        (match s with
         | [] => false
         | c :: t => (neg != inSet set c) && globAux fuel p2 t)
     | none =>
        (match s with
         | [] => false
         | c :: t => ('[' = c) && globAux fuel p t))
  | fuel + 1, c :: p, s =>
    (match s with
      | [] => false
      | d :: t => (c = d) && globAux fuel p t)

/-- Python `fnmatch.fnmatch(name, pattern)` (posix, no case folding). -/
def fnmatch (name pat : String) : Bool :=
  globAux (pat.length + name.length + 1) pat.toList name.toList

/-- The object kinds of `omegaml.documents.Metadata` used by the store core. -/
inductive Kind where
  | pandasDfrows
  | pandasSerows
  | pandasDfgroup
  | pandasHdf
  | pythonData
  | sklearnJoblib
  | sparkMllib
deriving DecidableEq, Repr

/-- A metadata catalog record. `mid` is the database primary key (`none`
until the record is first saved); `pre` is the record's `prefix` field.
The field defaults mirror unset mongoengine fields. -/
structure Metadata where
  mid : Option Nat := none
  name : String
  bucket : String
  pre : String
  kind : Option Kind := none
  kindMeta : Option (List (String × String)) := none
  attributes : Attrs := []
  collection : Option String := none
  gridfile : Option Nat := none
  objid : Option Nat := none
deriving Repr

/-- A stored mongo document: the database-assigned `_id` plus the document
body (for flat documents the dict holding the `data` field, for data-frame
rows the row record, for grouped storage the group document). -/
structure Doc where
  oid : Nat
  data : PyVal
deriving Repr

/-- The mongo database backing one store: metadata catalog, named data
collections, gridfs blobs (id and filename; blob bytes are opaque), and the
source of fresh object ids. -/
structure DBState where
  catalog : List Metadata := []
  colls : List (String × List Doc) := []
  blobs : List (Nat × String) := []
  nextId : Nat := 0
deriving Repr

/-- The keyword arguments accepted by `_make_metadata` (those its call sites
pass); `none` means the argument was not supplied, except for `attributes`
where `none` is also python `None` (the two are treated identically). -/
structure MetaKwargs where
  kind : Option Kind := none
  kindMeta : Option (List (String × String)) := none
  attributes : Option Attrs := none
  collection : Option String := none
  gridfile : Option Nat := none
  objid : Option Nat := none

/-- Selection of kinds for `list`: a single kind or a list of kinds. -/
inductive KindSel where
  | one (k : Kind)
  | many (ks : List Kind)

/-- An `OmegaStore` instance: its bucket, its path `prefix` (field `pre`
here), and the optional kind restriction given at construction. -/
structure OmegaStore where
  bucket : String
  pre : String
  force_kind : Option KindSel := none

/-- Errors surfaced by the embedded operations: mongoengine `DoesNotExist`,
python `TypeError`, python `AttributeError` (e.g. `None.keys()`), and
python `NotImplementedError` (truth-testing a pymongo collection handle). -/
inductive StoreErr where
  | doesNotExist
  | typeErr (msg : String)
  | attrErr
  | notImplementedErr
deriving DecidableEq, Repr

/-- Python `x or default` on an optional string (both `None` and the empty
string fall back to the default). -/
def pyOr (x : Option String) (d : String) : String :=
  match x with
  | none => d
  | some s => if s = "" then d else s

/-- Python truthiness of an optional string field (`None` and `''` falsy). -/
def truthyStrOpt : Option String → Bool
  | none => false
  | some s => decide (s ≠ "")

/-- The documents of a named collection (collection names are unique keys);
a missing collection reads as empty. -/
def lookupColl : List (String × List Doc) → String → List Doc
  | [], _ => []
  | p :: tl, cname => if p.1 == cname then p.2 else lookupColl tl cname

/-- Appending one document to a named collection, creating it on first
write. -/
def insertColls : List (String × List Doc) → String → Doc → List (String × List Doc)
  | [], cname, d => [(cname, [d])]
  | p :: tl, cname, d =>
    if p.1 == cname then (p.1, p.2 ++ [d]) :: tl else p :: insertColls tl cname d

/-- Reading a mongo collection: a missing collection reads as empty. -/
def getColl (db : DBState) (cname : String) : List Doc :=
  lookupColl db.colls cname

/-- `db.drop_collection(name)`: a no-op when the collection does not exist. -/
def dropCollection (db : DBState) (cname : String) : DBState :=
  { db with colls := db.colls.filter (fun p => p.1 ≠ cname) }

/-- `collection.insert(doc)`: create the collection on first write, append
the document, return its fresh `_id`. -/
def insertDoc (db : DBState) (cname : String) (v : PyVal) : DBState × Nat :=
  let oid := db.nextId
  ({ db with colls := insertColls db.colls cname ⟨oid, v⟩, nextId := db.nextId + 1 }, oid)

/-- `collection.insert_many(docs)`. -/
def insertMany (db : DBState) (cname : String) (docs : List PyVal) : DBState :=
  docs.foldl (fun d v => (insertDoc d cname v).1) db

/-- `OmegaStore._get_obj_store_key(name, ext)`: append the extension unless
already present, join bucket, prefix and name with dots, replace `/` by `_`,
collapse `..` to `.`. -/
def OmegaStore.getObjStoreKey (st : OmegaStore) (name ext : String) : String :=
  let name2 := if pyEndsWith name ext then name else name ++ "." ++ ext
  strReplace (strReplace (st.bucket ++ "." ++ st.pre ++ "." ++ name2) "/" "_") ".." "."

/-- The name of the data collection backing an object
(`OmegaStore.collection`): the store key for extension `.datastore`, with a
second `..`-collapse applied. -/
def OmegaStore.collectionName (st : OmegaStore) (name : String) : String :=
  strReplace (st.getObjStoreKey name ".datastore") ".." "."

/-- `OmegaStore.metadata(name, bucket, prefix)`: the first catalog record
matching the (name, prefix, bucket) triple, if any. -/
def OmegaStore.metadata (st : OmegaStore) (db : DBState) (name : String)
    (bucket pre : Option String) : Option Metadata :=
  let p := pyOr pre st.pre
  let b := pyOr bucket st.bucket
  db.catalog.find? (fun m => m.name == name && m.pre == p && m.bucket == b)

/-- The update loop of `_make_metadata` on an existing record: `attributes`
follows the three-way policy (None ignored, empty dict resets, non-empty dict
merges); every other supplied keyword argument overwrites its field. -/
def applyMetaKwargs (m : Metadata) (kw : MetaKwargs) : Metadata :=
  { m with
    attributes :=
      match kw.attributes with
      | none => m.attributes
      | some a => if a.isEmpty then [] else dictUpdate m.attributes a
    kind := match kw.kind with | none => m.kind | some k => some k
    kindMeta := match kw.kindMeta with | none => m.kindMeta | some km => some km
    collection := match kw.collection with | none => m.collection | some c => some c
    gridfile := match kw.gridfile with | none => m.gridfile | some g => some g
    objid := match kw.objid with | none => m.objid | some o => some o }

/-- `OmegaStore._make_metadata`: retrieve the record for the triple and update
it, or build a fresh (unsaved) record. For a fresh record, attributes default
to the empty dict when not supplied (per the method's contract; the
`Metadata` field declarations live in `omegaml/documents.py`, outside the
source excerpt). -/
def OmegaStore._make_metadata (st : OmegaStore) (db : DBState) (name : String)
    (bucket pre : Option String) (kw : MetaKwargs) : Metadata :=
  let b := pyOr bucket st.bucket
  let p := pyOr pre st.pre
  match st.metadata db name (some b) (some p) with
  | some meta => applyMetaKwargs meta kw
  | none =>
    { mid := none, name := name, bucket := b, pre := p,
      kind := kw.kind, kindMeta := kw.kindMeta,
      attributes := kw.attributes.getD [],
      collection := kw.collection, gridfile := kw.gridfile, objid := kw.objid }

/-- mongoengine `document.save()`: a record carrying a primary key replaces
the stored record with that key; a fresh record is inserted under a new key. -/
def saveMeta (db : DBState) (m : Metadata) : DBState × Metadata :=
  match m.mid with
  | some i =>
    ({ db with catalog := db.catalog.map (fun r => if r.mid == some i then m else r) }, m)
  | none =>
    let m2 := { m with mid := some db.nextId }
    ({ db with catalog := db.catalog ++ [m2], nextId := db.nextId + 1 }, m2)

/-- `OmegaStore._drop_metadata`: look the record up and delete it. -/
def OmegaStore._drop_metadata (st : OmegaStore) (db : DBState) (name : String) :
    DBState :=
  match st.metadata db name none none with
  | some m => { db with catalog := db.catalog.filter (fun r => r.mid ≠ m.mid) }
  | none => db

/-- `OmegaStore.drop(name, force)`: raise `DoesNotExist` when no record
exists and force is not set. Past that check the method truth-tests the
pymongo collection handle (`collection = self.collection(name);
if collection:`); pymongo Collection objects do not implement truth value
testing and raise `NotImplementedError` there, so every call reaching that
line raises, and none of the deletion code or the `True`/`False` returns
below it is ever executed (acquiring the handle itself has no database
effect). -/
def OmegaStore.drop (st : OmegaStore) (db : DBState) (name : String) (force : Bool) :
    Except StoreErr (DBState × Bool) :=
  if (st.metadata db name none none).isNone ∧ ¬force then .error .doesNotExist
  else .error .notImplementedErr

/-- `OmegaStore.put_pyobj_as_document`: wrap the value in a `data` document,
append it (or replace the collection when `append=False`; `append=None` with
existing documents only warns), and upsert the metadata record. -/
def OmegaStore.put_pyobj_as_document (st : OmegaStore) (db : DBState) (obj : PyVal)
    (name : String) (attributes : Option Attrs) (append : Option Bool) :
    DBState × Metadata :=
  let cname := st.collectionName name
  let db1 := if append = some false then dropCollection db cname else db
  let r := insertDoc db1 cname (PyVal.dict [("data", obj)])
  let meta := st._make_metadata r.1 name (some st.bucket) (some st.pre)
      { kind := some Kind.pythonData, collection := some cname,
        attributes := attributes, objid := some r.2 }
  saveMeta r.1 meta

/-- A pandas data frame or series as the store sees it: column names plus
rows as records. Index decomposition, dtype capture and timestamp columns
transform only the row payload and the `kind_meta` details, none of which is
observed by the properties proved here. `df.empty` is `rows.isEmpty`. -/
structure DataFrame where
  columns : List String := []
  rows : List (List (String × PyVal)) := []

/-- Modelled from the spec: `jsonescape` (in `omegaml.util`, absent from the
source excerpt) escapes column names "to be safe document keys"; modelled as
replacing the mongo-reserved dot and dollar characters by an underscore. -/
def jsonescape (s : String) : String :=
  String.mk (s.toList.map (fun c => if c = '.' ∨ c = '$' then '_' else c))

/-- Modelled from the spec: `fast_insert` (module `omegaml.store.fastinsert`,
absent from the source excerpt) bulk-inserts the row documents into the
object's collection ("Rows are then bulk-inserted"). -/
def fastInsert (db : DBState) (cname : String)
    (rows : List (List (String × PyVal))) : DBState :=
  insertMany db cname (rows.map PyVal.dict)

/-- `OmegaStore.put_dataframe_as_documents`: on `append=False` the method
calls `self.drop(name, force=True)`, which raises `NotImplementedError` at
the pymongo collection truth test before deleting or writing anything, so
the put aborts with the database unchanged; on `append=None` with existing
rows only a warning is issued; otherwise the rows are bulk-inserted and the
metadata record upserted with the column map as kind metadata. -/
def OmegaStore.put_dataframe_as_documents (st : OmegaStore) (db : DBState)
    (obj : DataFrame) (store_series : Bool) (name : String) (append : Option Bool)
    (attributes : Option Attrs) : Except StoreErr (DBState × Metadata) :=
  if append = some false then .error .notImplementedErr
  else
    let cname := st.collectionName name
    let column_map := obj.columns.map (fun c => (c, jsonescape c))
    let db2 := fastInsert db cname obj.rows
    let kind := if store_series then Kind.pandasSerows else Kind.pandasDfrows
    let meta := st._make_metadata db2 name (some st.bucket) (some st.pre)
        { kind := some kind, kindMeta := some column_map,
          attributes := attributes, collection := some cname }
    .ok (saveMeta db2 meta)

/-- The key fields of one row for a list of grouping columns. -/
def rowProj (cols : List String) (row : List (String × PyVal)) :
    List (String × PyVal) :=
  cols.map (fun g => (g, (assocLookup row g).getD (PyVal.str "")))

/-- The distinct group keys of the rows, in first-occurrence order (pandas
`groupby` actually orders groups by key; no property here observes group
order). -/
def distinctKeys (cols : List String) (rows : List (List (String × PyVal))) :
    List (List (String × PyVal)) :=
  rows.foldl (fun acc r =>
    let k := rowProj cols r
    if acc.any (fun k2 => PyVal.beqD k2 k) then acc else acc ++ [k]) []

/-- The `row_to_doc` generator of `put_dataframe_as_dfgroup` over the
modelled pandas `groupby`: one document per distinct group key, holding the
key fields plus the remaining fields of the member rows under `_data`. -/
def rowToDoc (cols : List String) (rows : List (List (String × PyVal))) :
    List PyVal :=
  (distinctKeys cols rows).map (fun k =>
    PyVal.dict (k ++ [("_data", PyVal.arr
      ((rows.filter (fun r => PyVal.beqD (rowProj cols r) k)).map
        (fun r => PyVal.dict (r.filter (fun p => ¬ cols.contains p.1)))))]))

/-- `OmegaStore.put_dataframe_as_dfgroup`: always replace the collection,
insert the group documents, upsert the metadata record. -/
def OmegaStore.put_dataframe_as_dfgroup (st : OmegaStore) (db : DBState)
    (obj : DataFrame) (name : String) (groupby : List String)
    (attributes : Option Attrs) : DBState × Metadata :=
  let cname := st.collectionName name
  let db1 := dropCollection db cname
  let db2 := insertMany db1 cname (rowToDoc groupby obj.rows)
  let meta := st._make_metadata db2 name (some st.bucket) (some st.pre)
      { kind := some Kind.pandasDfgroup, attributes := attributes,
        collection := some cname }
  saveMeta db2 meta

/-- `OmegaStore.put_dataframe_as_hdf`: package the table into a binary
container (the bytes are opaque here), store it as a gridfs blob under the
derived `.hdf` store key, and upsert the metadata record pointing at the
blob. -/
def OmegaStore.put_dataframe_as_hdf (st : OmegaStore) (db : DBState)
    (obj : DataFrame) (name : String) (attributes : Option Attrs) :
    DBState × Metadata :=
  let filename := st.getObjStoreKey name ".hdf"
  let fileid := db.nextId
  let db1 := { db with
    blobs := db.blobs ++ [(fileid, filename)]
    nextId := db.nextId + 1 }
  let meta := st._make_metadata db1 name (some st.bucket) (some st.pre)
      { kind := some Kind.pandasHdf, attributes := attributes,
        gridfile := some fileid }
  saveMeta db1 meta

/-- Modelled behaviour of `pandas.DataFrame(obj)` as `put_pyobj_as_hdf` uses
it (the object coerced into tabular form). Only the fact of the conversion is
observable: the resulting table is serialized into an opaque blob. -/
def pdDataFrame (v : PyVal) : DataFrame :=
  match v with
  | .dict fs => { columns := fs.map (·.1), rows := [] }
  | .arr l => { columns := ["0"], rows := l.map (fun x => [("0", x)]) }
  | x => { columns := ["0"], rows := [[("0", x)]] }

/-- `OmegaStore.put_pyobj_as_hdf`: convert to a table, then store as hdf. -/
def OmegaStore.put_pyobj_as_hdf (st : OmegaStore) (db : DBState) (obj : PyVal)
    (name : String) (attributes : Option Attrs) : DBState × Metadata :=
  st.put_dataframe_as_hdf db (pdDataFrame obj) name attributes

/-- The objects the `put` dispatcher is modelled over: tabular input
(dataframe or single-column series), a python dict/list/tuple, or a value of
an unsupported type. Estimator and raw-array inputs go through strategies
outside the scope of the properties proved here, and the backend registry of
the surrounding configuration is empty, so `put` falls through to the
built-in decision tree. -/
inductive PutObj where
  | dataframe (df : DataFrame)
  | series (s : DataFrame)
  | pydata (v : PyVal)
  | unsupported (tyname : String)

/-- The keyword options of `put` relevant to the built-in decision tree.
`none` means the option was not supplied. (An explicit python `append=None`
is not distinguished from an absent `append`; it only selects the warning
path.) -/
structure PutKwargs where
  as_hdf : Bool := false
  groupby : Option (List String) := none
  append : Option Bool := none

/-- Python truthiness of the `groupby` option (absent or `[]` falsy). -/
def truthyList (o : Option (List String)) : Bool :=
  match o with
  | none => false
  | some l => decide (l ≠ [])

/-- The tabular branch of `put` (`is_dataframe(obj) or is_series(obj)`):
empty input warns and returns nothing before any other option is looked at;
`as_hdf` takes precedence over `groupby` (and tolerates no other keyword
argument); a truthy `groupby` selects grouped storage; otherwise row-document
storage with the `append` option. -/
def OmegaStore.putTabular (st : OmegaStore) (db : DBState) (df : DataFrame)
    (isSeries : Bool) (name : String) (attributes : Option Attrs)
    (kw : PutKwargs) : Except StoreErr (DBState × Option Metadata) :=
  let groupby := kw.groupby
  if df.rows.isEmpty then
    .ok (db, none)
  else if kw.as_hdf then
    if kw.groupby.isSome ∨ kw.append.isSome then
      .error (.typeErr "put_dataframe_as_hdf() got an unexpected keyword argument")
    else
      let r := st.put_dataframe_as_hdf db df name attributes
      .ok (r.1, some r.2)
  else if truthyList groupby then
    let r := st.put_dataframe_as_dfgroup db df name (groupby.getD []) attributes
    .ok (r.1, some r.2)
  else
    match st.put_dataframe_as_documents db df isSeries name kw.append attributes with
    | .error e => .error e
    | .ok r => .ok (r.1, some r.2)

/-- `OmegaStore.put`: the built-in dispatch tree. In the dict/list/tuple
branch with `as_hdf` requested, the source is missing a `return`: the hdf
result is discarded and the object is additionally stored as a flat document,
whose metadata record is what `put` returns. -/
def OmegaStore.put (st : OmegaStore) (db : DBState) (obj : PutObj) (name : String)
    (attributes : Option Attrs) (kw : PutKwargs) :
    Except StoreErr (DBState × Option Metadata) :=
  match obj with
  | .dataframe df => st.putTabular db df false name attributes kw
  | .series df => st.putTabular db df true name attributes kw
  | .pydata v =>
    if kw.as_hdf then
      if kw.groupby.isSome ∨ kw.append.isSome then
        .error (.typeErr "put_pyobj_as_hdf() got an unexpected keyword argument")
      else
        let r1 := st.put_pyobj_as_hdf db v name attributes
        let r2 := st.put_pyobj_as_document r1.1 v name attributes (some true)
        .ok (r2.1, some r2.2)
    else
      if kw.groupby.isSome then
        .error (.typeErr "put_pyobj_as_document() got an unexpected keyword argument")
      else
        let ap := match kw.append with | none => some true | some b => some b
        let r := st.put_pyobj_as_document db v name attributes ap
        .ok (r.1, some r.2)
  | .unsupported t => .error (.typeErr t)

/-- `OmegaStore.get_python_data`: read the whole backing collection and
return the `data` field of every document (python builds exactly
`list(d.get('data') for d in collection.find())`). -/
def OmegaStore.get_python_data (st : OmegaStore) (db : DBState) (name : String) :
    List (Option PyVal) :=
  (getColl db (st.collectionName name)).map (fun d => pyGet d.data "data")

/-- Result shapes of `get_object_as_python`. -/
inductive PyResult where
  | blob (g : Option Nat)
  | docs (l : List Doc)
  | value (v : Option PyVal)
deriving Repr

/-- `OmegaStore.get_object_as_python`: gridfile for model/hdf kinds, the raw
documents for row storage, and for flat documents the one document found by
its recorded id (a missing document makes `find_one` return `None`, whose
`.get` raises). -/
def OmegaStore.get_object_as_python (st : OmegaStore) (db : DBState)
    (meta : Metadata) : Except StoreErr PyResult :=
  match meta.kind with
  | some Kind.sklearnJoblib => .ok (.blob meta.gridfile)
  | some Kind.pandasHdf => .ok (.blob meta.gridfile)
  | some Kind.pandasDfrows => .ok (.docs (getColl db (meta.collection.getD "")))
  | some Kind.pythonData =>
    let col := getColl db (meta.collection.getD "")
    match col.find? (fun d => some d.oid == meta.objid) with
    | some d => .ok (.value (pyGet d.data "data"))
    | none => .error .attrErr
  | _ => .error (.typeErr "cannot return kind as a python object")

/-- The keys of a document body. -/
def docKeys (v : PyVal) : List String :=
  match v with
  | .dict fs => fs.map (·.1)
  | _ => []

/-- `OmegaStore.rebuild_params`: read one stored document to learn the group
key fields (on an empty collection `find_one` yields `None` and `.keys()`
raises); keep filter keys that are group key fields at the top level, prefix
every other key with `_data.`. -/
def OmegaStore.rebuild_params (kwargs : List (String × PyVal)) (coll : List Doc) :
    Except StoreErr (List (String × PyVal)) :=
  match coll.head? with
  | none => .error .attrErr
  | some d =>
    let groupby_columns := (docKeys d.data).filter (fun k => k ≠ "_data")
    .ok (kwargs.map (fun p =>
      if groupby_columns.contains p.1 then p else ("_data." ++ p.1, p.2)))

/-- Equality matching of one mongo filter entry against a group document, as
the grouped-document strategy uses it: a plain key matches a top-level field,
a `_data.`-prefixed key matches when some element of the `_data` array has
the sub-field equal to the value (mongodb's dotted-path equality restricted
to the document shape this strategy writes). -/
def mongoFieldMatches (doc : PyVal) (key : String) (v : PyVal) : Bool :=
  match doc with
  | .dict fs =>
    if pyStartsWith key "_data." then
      let sub := String.mk (key.toList.drop 6)
      match assocLookup fs "_data" with
      | some (.arr l) => l.any (fun e =>
          match pyGet e sub with
          | some w => PyVal.beq w v
          | none => false)
      | _ => false
    else
      match assocLookup fs key with
      | some w => PyVal.beq w v
      | none => false
  | _ => false

/-- The `convert_doc_to_row` generator of `get_dataframe_dfgroup` as its
caller materializes it: the generator pops `_data` off each document, then
mutates and re-yields that one dict per row; `pd.DataFrame` first collects
the generator into a list of references to those dicts, so every row of a
group ends up equal to the group's final merged dict (one entry per `_data`
row). -/
def convert_doc_to_row (docs : List PyVal) : List (List (String × PyVal)) :=
  (docs.map (fun doc =>
    match doc with
    | .dict fs =>
      let dat := match assocLookup fs "_data" with
        | some (.arr l) => l
        | _ => []
      let base := fs.filter (fun p => p.1 ≠ "_data")
      let final := dat.foldl (fun acc row =>
          dictUpdate acc (match row with | .dict rf => rf | _ => [])) base
      dat.map (fun _ => final)
    | _ => [])).flatten

/-- `OmegaStore.get_dataframe_dfgroup`: translate the filter via
`rebuild_params` (which needs a sample document), query the collection, and
expand the group documents back into rows. -/
def OmegaStore.get_dataframe_dfgroup (st : OmegaStore) (db : DBState)
    (name : String) (kwargs : Option (List (String × PyVal))) :
    Except StoreErr (List (List (String × PyVal))) :=
  let datastore := getColl db (st.collectionName name)
  let kw := kwargs.getD []
  match OmegaStore.rebuild_params kw datastore with
  | .error e => .error e
  | .ok params =>
    let cursor := datastore.filter (fun d =>
      params.all (fun p => mongoFieldMatches d.data p.1 p.2))
    .ok (convert_doc_to_row (cursor.map (·.data)))

/-- Python truthiness of the `kind` argument of `list`. -/
def kindSelTruthy : Option KindSel → Bool
  | none => false
  | some (.one _) => true
  | some (.many ks) => decide (ks ≠ [])

/-- The kind restriction of `list`: `kind=k` exact match or `kind__in=ks`. -/
def kindSelMatch : KindSel → Option Kind → Bool
  | .one k, mk => mk == some k
  | .many ks, mk => match mk with | some k => decide (k ∈ ks) | none => false

/-- Result of `OmegaStore.list`: names, or raw metadata records. -/
inductive ListResult where
  | names (l : List String)
  | metas (l : List Metadata)
deriving Repr

/-- `OmegaStore.list`: enumerate the catalog records of the store's
(bucket, prefix) scope, optionally restricted by kind; filter names by regexp
(`re.match`, abstracted as `rmatch`) or else by shell glob; non-raw results
additionally strip the `.omm` suffix and hide `_temp`-prefixed names unless
requested. -/
def OmegaStore.list (st : OmegaStore) (db : DBState) (pattern regexp : Option String)
    (kind : Option KindSel) (raw : Bool) (include_temp : Bool)
    (rmatch : String → String → Bool) : ListResult :=
  let sel : Option KindSel :=
    if kindSelTruthy kind ∨ kindSelTruthy st.force_kind then
      (if kindSelTruthy kind then kind else st.force_kind)
    else none
  let metas := db.catalog.filter (fun m =>
    m.bucket == st.bucket && m.pre == st.pre &&
      (match sel with | none => true | some s => kindSelMatch s m.kind))
  if raw then
    .metas (if truthyStrOpt regexp then
              metas.filter (fun f => rmatch (regexp.getD "") f.name)
            else if truthyStrOpt pattern then
              metas.filter (fun f => fnmatch f.name (pattern.getD ""))
            else metas)
  else
    let files := metas.map (fun m => m.name)
    let files := if truthyStrOpt regexp then
                   files.filter (fun f => rmatch (regexp.getD "") f)
                 else if truthyStrOpt pattern then
                   files.filter (fun f => fnmatch f (pattern.getD ""))
                 else files
    let files := files.map (fun f => strReplace f ".omm" "")
    let files := if include_temp then files
                 else files.filter (fun f => ¬ pyStartsWith f "_temp")
    .names files

/-- The names of a non-raw `list` result (empty for a raw result). -/
def namesOf : ListResult → List String
  | .names l => l
  | .metas _ => []

/-- The store-key contract in the specification's words: append the extension
to the name unless already present; compose bucket, prefix, name joined by
dots; replace every `/` by `_`; collapse `..` produced by empty segments into
`.`. -/
def keySpec (bucket pre name ext : String) : String :=
  let withExt := if pyEndsWith name ext then name else name ++ "." ++ ext
  let joined := bucket ++ "." ++ pre ++ "." ++ withExt
  let slashed := String.mk (joined.toList.map (fun c => if c = '/' then '_' else c))
  strReplace slashed ".." "."

/-- Number of catalog records carrying a given (name, bucket, prefix). -/
def tripleCount (db : DBState) (name bucket pre : String) : Nat :=
  (db.catalog.filter (fun m => m.name == name && m.pre == pre && m.bucket == bucket)).length

/-- Catalog well-formedness: every record carries a primary key below the
fresh-id counter, and primary keys are pairwise distinct. -/
def midsOk (db : DBState) : Prop :=
  (∀ m ∈ db.catalog, ∃ i, m.mid = some i ∧ i < db.nextId) ∧
  db.catalog.Pairwise (fun a b => a.mid ≠ b.mid)

/-- The metadata upsert step shared by every `put_*` strategy:
`self._make_metadata(...).save()` with the store's own bucket and prefix. -/
def makeAndSave (st : OmegaStore) (db : DBState) (name : String) (kw : MetaKwargs) :
    DBState × Metadata :=
  saveMeta db (st._make_metadata db name (some st.bucket) (some st.pre) kw)

/-- The predicate `metadata` filters the catalog with: exact match on the
(name, prefix, bucket) triple of the store. -/
def tripleMatch (st : OmegaStore) (name : String) (m : Metadata) : Bool :=
  m.name == name && m.pre == st.pre && m.bucket == st.bucket

/-! ### Concrete scenario data used by the witnesses and counterexamples -/

/-- A sample store instance: bucket `store`, empty path, no kind
restriction. -/
def sampleStore : OmegaStore := { bucket := "store", pre := "" }

/-- The database state after a successful `put` (the empty database on
error; every use below is on a succeeding call). -/
def putDB (r : Except StoreErr (DBState × Option Metadata)) : DBState :=
  match r with | .ok p => p.1 | .error _ => {}

/-- The attributes of the metadata record a successful `put` returned. -/
def putAttrs (r : Except StoreErr (DBState × Option Metadata)) : Option Attrs :=
  match r with | .ok (_, some m) => some m.attributes | _ => none

/-- First put of the attributes-merge scenario: attributes `{'a': 1}`. -/
def c1r1 : Except StoreErr (DBState × Option Metadata) :=
  sampleStore.put {} (.pydata (.arr [.num 7])) "x" (some [("a", .num 1)]) {}

/-- Second put: attributes `{'b': 2}` merge into the existing record. -/
def c1r2 : Except StoreErr (DBState × Option Metadata) :=
  sampleStore.put (putDB c1r1) (.pydata (.arr [.num 7])) "x" (some [("b", .num 2)]) {}

/-- Third put: no attributes argument, the existing attributes persist. -/
def c1r3 : Except StoreErr (DBState × Option Metadata) :=
  sampleStore.put (putDB c1r2) (.pydata (.arr [.num 7])) "x" none {}

/-- Fourth put: an explicit empty mapping resets the attributes. -/
def c1r4 : Except StoreErr (DBState × Option Metadata) :=
  sampleStore.put (putDB c1r3) (.pydata (.arr [.num 7])) "x" (some []) {}

/-- A database holding one flat-document object named `x`. -/
def c2db : DBState :=
  putDB (sampleStore.put {} (.pydata (.arr [.num 7])) "x" none {})

/-- Two flat-document puts of distinguishable payloads under one name. -/
def c3r2 : Except StoreErr (DBState × Option Metadata) :=
  sampleStore.put (putDB (sampleStore.put {} (.pydata (.arr [.num 7])) "x" none {}))
    (.pydata (.arr [.num 8])) "x" none {}

/-- The dict stored with `as_hdf=True` in the misdispatch scenario. -/
def c4obj : PyVal := .dict [("a", .arr [.num 1, .num 2])]

/-- A catalog for the listing example: names abc, abd, zzz and a
temporary-marker name, all in the sample store's scope. -/
def c8db : DBState :=
  { catalog := [
      { mid := some 0, name := "abc", bucket := "store", pre := "",
        kind := some .pandasDfrows },
      { mid := some 1, name := "abd", bucket := "store", pre := "",
        kind := some .pythonData },
      { mid := some 2, name := "zzz", bucket := "store", pre := "",
        kind := some .pandasDfrows },
      { mid := some 3, name := "_tempq", bucket := "store", pre := "",
        kind := some .pandasDfrows }],
    nextId := 4 }

/-- A one-row data frame used by the row-document scenarios. -/
def dfA : DataFrame := { columns := ["c"], rows := [[("c", .num 5)]] }

/-- A database holding a row-document object `d` with attributes `{'a':1}`
(the state the first row-document put of the scenario produces). -/
def c9db : DBState :=
  putDB (sampleStore.put {} (.dataframe dfA) "d" (some [("a", .num 1)]) {})

/-- One stored group document: group key field `g`, data field `x`. -/
def gdoc : PyVal := .dict [("g", .num 1), ("_data", .arr [.dict [("x", .num 9)]])]

/-- A database whose collection for `w` holds the one group document. -/
def c10db : DBState :=
  { colls := [(sampleStore.collectionName "w", [⟨0, gdoc⟩])], nextId := 1 }

/-- The metadata record the `as_hdf` flat-document put returns: a
flat-document (`python.data`) record, with the gridfs file of the discarded
hdf write left dangling on it. -/
def c4meta : Metadata :=
  { mid := some 1, name := "y", bucket := "store", pre := "",
    kind := some .pythonData, kindMeta := none, attributes := [],
    collection := some "store.y.datastore", gridfile := some 0, objid := some 2 }

/-- The database state after the `as_hdf` flat-document put: both the hdf
blob and the flat document were written. -/
def c4db : DBState :=
  { catalog := [c4meta],
    colls := [("store.y.datastore", [⟨2, .dict [("data", c4obj)]⟩])],
    blobs := [(0, "store.y.hdf")],
    nextId := 3 }

/-!
### Theorems

Helper lemmas first, then one theorem per claim (with witnesses and
counterexamples where applicable).
-/

/-- Claim C2: `drop` with `force=False` on a missing name raises not-found
as claimed — but past that check the source truth-tests the pymongo
collection handle, which raises `NotImplementedError`, so
`drop('missing', force=True)` raises instead of returning `True` as a no-op,
and `drop` on an existing record raises instead of deleting and returning
`True`, contradicting the method's own contract ("If force is True and the
object does not exist it will still return True"). -/
theorem claim_C2_drop_missing :
    sampleStore.drop {} "missing" false = .error .doesNotExist ∧
    sampleStore.drop {} "missing" true = .error .notImplementedErr ∧
    sampleStore.drop c2db "x" false = .error .notImplementedErr ∧
    sampleStore.drop c2db "x" true = .error .notImplementedErr :=
  ⟨rfl, rfl, rfl, rfl⟩

/-- Claim C4: putting a dict with `as_hdf=True` stores the hdf blob but
(missing `return`) also stores the object as a flat document and returns the
flat-document (`python.data`) record, not the binary-container record. -/
theorem claim_C4_as_hdf_misdispatch :
    sampleStore.put {} (.pydata c4obj) "y" none { as_hdf := true } =
      .ok (c4db, some c4meta) ∧
    c4meta.kind = some Kind.pythonData ∧
    c4meta.kind ≠ some Kind.pandasHdf ∧
    c4db.blobs = [(0, "store.y.hdf")] :=
  ⟨rfl, rfl, by decide, rfl⟩

/-- Claim C5: an empty tabular `put` (dataframe or series) is a warning-only
no-op: it returns no metadata record and leaves the database untouched,
whatever combination of `groupby`, `as_hdf` and `append` options is
supplied. -/
theorem claim_C5_empty_tabular_put (st : OmegaStore) (db : DBState) (df : DataFrame)
    (name : String) (attrs : Option Attrs) (kw : PutKwargs) (h : df.rows = []) :
    st.put db (.dataframe df) name attrs kw = .ok (db, none) ∧
    st.put db (.series df) name attrs kw = .ok (db, none) := by
  unfold OmegaStore.put OmegaStore.putTabular
  simp [h]

/-- Witness for C5: an empty one-column dataframe with every tabular option
set is ignored by `put`. -/
theorem claim_C5_witness :
    sampleStore.put {} (.dataframe { columns := ["a"], rows := [] }) "z"
      (some [("a", .num 1)])
      { as_hdf := true, groupby := some ["g"], append := some false } =
      .ok ({}, none) :=
  (claim_C5_empty_tabular_put sampleStore {} { columns := ["a"], rows := [] } "z"
    (some [("a", .num 1)])
    { as_hdf := true, groupby := some ["g"], append := some false } rfl).1

theorem saveMeta_colls (db : DBState) (m : Metadata) :
    (saveMeta db m).1.colls = db.colls := by
  unfold saveMeta
  cases m.mid <;> rfl

theorem lookupColl_insertColls (colls : List (String × List Doc)) (cname : String)
    (d : Doc) :
    lookupColl (insertColls colls cname d) cname = lookupColl colls cname ++ [d] := by
  induction colls with
  | nil => simp [insertColls, lookupColl]
  | cons p tl ih =>
    unfold insertColls
    by_cases hp : (p.1 == cname) = true
    · rw [if_pos hp]
      unfold lookupColl
      rw [if_pos hp, if_pos hp]
    · rw [if_neg hp]
      unfold lookupColl
      rw [if_neg hp, if_neg hp]
      exact ih

/-- Claim C3 (counterexample): after two flat-document puts under one name,
the metadata record's `objid` names the second document (payload `[8]`), yet
`get_python_data` — what `get` runs for this kind — returns the payloads of
both documents, not the single identified payload. -/
theorem claim_C3_counterexample :
    sampleStore.get_python_data (putDB c3r2) "x" =
      [some (.arr [.num 7]), some (.arr [.num 8])] ∧
    (sampleStore.metadata (putDB c3r2) "x" none none).map Metadata.objid =
      some (some 2) ∧
    (getColl (putDB c3r2) (sampleStore.collectionName "x")).find?
      (fun d => d.oid == 2) = some ⟨2, .dict [("data", .arr [.num 8])]⟩ ∧
    sampleStore.get_python_data (putDB c3r2) "x" ≠ [some (.arr [.num 8])] := by
  refine ⟨rfl, rfl, rfl, fun h => ?_⟩
  have h2 : [some (PyVal.arr [PyVal.num 7]), some (PyVal.arr [PyVal.num 8])] =
      [some (PyVal.arr [PyVal.num 8])] := h
  simpa using congrArg List.length h2

/-- Claim C3 (amended): `get` on a flat-document object returns the list of
the `data` payloads of all documents of the backing collection — each
append-put extends the result by its payload — and the result does not
depend on the metadata catalog, hence not on the recorded identifier; the
identifier lookup happens only in the force-python path
(`get_object_as_python`). -/
theorem claim_C3_amended (st : OmegaStore) (db : DBState) (obj : PyVal)
    (name : String) (attrs : Option Attrs) :
    st.get_python_data (st.put_pyobj_as_document db obj name attrs (some true)).1 name =
      st.get_python_data db name ++ [some obj] ∧
    (∀ cat2 : List Metadata,
      st.get_python_data { db with catalog := cat2 } name =
        st.get_python_data db name) ∧
    (∀ (m : Metadata) (d : Doc), m.kind = some Kind.pythonData →
      (getColl db (m.collection.getD "")).find?
          (fun d2 => some d2.oid == m.objid) = some d →
      st.get_object_as_python db m = .ok (.value (pyGet d.data "data"))) := by
  refine ⟨?_, fun cat2 => rfl, fun m d hk hf => ?_⟩
  · unfold OmegaStore.put_pyobj_as_document OmegaStore.get_python_data
    simp only [getColl, saveMeta_colls]
    simp [insertDoc, lookupColl_insertColls, pyGet, assocLookup]
  · unfold OmegaStore.get_object_as_python
    rw [hk]
    simp only [hf]

theorem assocLookup_dictSet_self {α : Type} (d : List (String × α)) (k : String)
    (v : α) :
    assocLookup (dictSet d k v) k = some v := by
  induction d with
  | nil => simp [dictSet, assocLookup]
  | cons p tl ih =>
    unfold dictSet
    by_cases hp : (p.1 == k) = true
    · rw [if_pos hp]
      simp [assocLookup]
    · rw [if_neg hp]
      unfold assocLookup at ih ⊢
      rw [List.find?_cons_of_neg _ (by simpa using hp)]
      exact ih

theorem assocLookup_dictSet_other {α : Type} (d : List (String × α)) (k k2 : String)
    (v : α) (hne : k2 ≠ k) :
    assocLookup (dictSet d k v) k2 = assocLookup d k2 := by
  have hkk : ¬ ((k == k2) = true) := by
    simp [hne.symm]
  induction d with
  | nil =>
    unfold dictSet assocLookup
    rw [List.find?_cons_of_neg _ (by simpa using hkk)]
  | cons p tl ih =>
    unfold dictSet
    by_cases hp : (p.1 == k) = true
    · rw [if_pos hp]
      have hpk : p.1 = k := by simpa using hp
      have hp2 : ¬ ((p.1 == k2) = true) := by simp [hpk, hne.symm]
      unfold assocLookup
      rw [List.find?_cons_of_neg _ (by simpa using hkk),
        List.find?_cons_of_neg _ (by exact hp2)]
    · rw [if_neg hp]
      unfold assocLookup at ih ⊢
      by_cases hq : (p.1 == k2) = true
      · rw [List.find?_cons_of_pos _ (by exact hq),
          List.find?_cons_of_pos _ (by exact hq)]
      · rw [List.find?_cons_of_neg _ (by exact hq),
          List.find?_cons_of_neg _ (by exact hq)]
        exact ih

theorem assocLookup_dictUpdate_not_mem {α : Type} (d u : List (String × α))
    (k : String) (h : k ∉ u.map Prod.fst) :
    assocLookup (dictUpdate d u) k = assocLookup d k := by
  induction u generalizing d with
  | nil => rfl
  | cons p tu ih =>
    simp only [List.map_cons, List.mem_cons] at h
    push_neg at h
    show assocLookup (dictUpdate (dictSet d p.1 p.2) tu) k = _
    rw [ih _ h.2, assocLookup_dictSet_other _ _ _ _ h.1]

theorem assocLookup_dictUpdate_mem {α : Type} (d u : List (String × α))
    (k : String) (v : α) (hnd : (u.map Prod.fst).Nodup) (hmem : (k, v) ∈ u) :
    assocLookup (dictUpdate d u) k = some v := by
  induction u generalizing d with
  | nil => cases hmem
  | cons p tu ih =>
    simp only [List.map_cons, List.nodup_cons] at hnd
    rcases List.mem_cons.mp hmem with heq | hmem2
    · subst heq
      show assocLookup (dictUpdate (dictSet d k v) tu) k = some v
      rw [assocLookup_dictUpdate_not_mem _ _ _ hnd.1, assocLookup_dictSet_self]
    · exact ih (dictSet d p.1 p.2) hnd.2 hmem2

/-- Claim C1: on an existing metadata record, `put`'s metadata upsert treats
the attributes argument exactly three ways — absent leaves them unchanged,
an explicit empty mapping resets them, a non-empty mapping is merged key by
key (keys not mentioned keep their values, mentioned keys take the new
value); in particular put with `{'a':1}` then `{'b':2}` yields
`{'a':1,'b':2}`, a further attribute-less put keeps them, and a put with
`{}` clears them. -/
theorem claim_C1_attributes_policy :
    (∀ (st : OmegaStore) (db : DBState) (name : String) (b p : Option String)
       (kw : MetaKwargs) (m0 : Metadata),
       st.metadata db name (some (pyOr b st.bucket)) (some (pyOr p st.pre)) = some m0 →
       ((kw.attributes = none →
           (st._make_metadata db name b p kw).attributes = m0.attributes) ∧
        (kw.attributes = some [] →
           (st._make_metadata db name b p kw).attributes = []) ∧
        (∀ a, kw.attributes = some a → a ≠ [] →
           (st._make_metadata db name b p kw).attributes =
             dictUpdate m0.attributes a))) ∧
    (∀ (d u : Attrs) (k : String), k ∉ u.map Prod.fst →
       assocLookup (dictUpdate d u) k = assocLookup d k) ∧
    (∀ (d u : Attrs) (k : String) (v : PyVal),
       (u.map Prod.fst).Nodup → (k, v) ∈ u →
       assocLookup (dictUpdate d u) k = some v) ∧
    putAttrs c1r2 = some [("a", .num 1), ("b", .num 2)] ∧
    putAttrs c1r3 = some [("a", .num 1), ("b", .num 2)] ∧
    putAttrs c1r4 = some [] := by
  refine ⟨?_, fun d u k h => assocLookup_dictUpdate_not_mem d u k h,
    fun d u k v hnd hm => assocLookup_dictUpdate_mem d u k v hnd hm,
    rfl, rfl, rfl⟩
  intro st db name b p kw m0 hfound
  simp only [OmegaStore._make_metadata, hfound]
  refine ⟨fun ha => ?_, fun ha => ?_, fun a ha hne => ?_⟩
  · simp [applyMetaKwargs, ha]
  · simp [applyMetaKwargs, ha]
  · cases a with
    | nil => exact absurd rfl hne
    | cons q tq => simp [applyMetaKwargs, ha]

/-- Witness for C1: the three-way policy applied at a concrete existing
record, one instance per branch, and a concrete key-by-key merge lookup. -/
theorem claim_C1_witness :
    (sampleStore._make_metadata c2db "x" none none { attributes := none }).attributes
        = [] ∧
    (sampleStore._make_metadata c9db "d" none none
        { attributes := some [] }).attributes = [] ∧
    (sampleStore._make_metadata c9db "d" none none
        { attributes := some [("b", .num 2)] }).attributes =
      dictUpdate [("a", .num 1)] [("b", .num 2)] ∧
    assocLookup (dictUpdate [("a", PyVal.num 1)] [("b", PyVal.num 2)]) "a" =
      some (PyVal.num 1) := by
  refine ⟨?_, ?_, ?_, ?_⟩
  · exact (claim_C1_attributes_policy.1 sampleStore c2db "x" none none
      { attributes := none } _ rfl).1 rfl
  · exact (claim_C1_attributes_policy.1 sampleStore c9db "d" none none
      { attributes := some [] } _ rfl).2.1 rfl
  · exact (claim_C1_attributes_policy.1 sampleStore c9db "d" none none
      { attributes := some [("b", .num 2)] } _ rfl).2.2 [("b", .num 2)] rfl
      (List.cons_ne_nil _ _)
  · exact claim_C1_attributes_policy.2.1 [("a", PyVal.num 1)] [("b", PyVal.num 2)]
      "a" (by decide)

/-- Witness for C3 (amended): the identifier lookup of the force-python path
returns exactly the identified payload on the two-document collection. -/
theorem claim_C3_witness :
    sampleStore.get_object_as_python (putDB c3r2)
      { mid := some 1, name := "x", bucket := "store", pre := "",
        kind := some .pythonData, collection := some "store.x.datastore",
        objid := some 2 } = .ok (.value (some (.arr [.num 8]))) :=
  (claim_C3_amended sampleStore (putDB c3r2) (.arr [.num 7]) "x" none).2.2
    { mid := some 1, name := "x", bucket := "store", pre := "",
      kind := some .pythonData, collection := some "store.x.datastore",
      objid := some 2 }
    ⟨2, .dict [("data", .arr [.num 8])]⟩ rfl rfl

theorem replaceAux_slash (fuel : Nat) (l : List Char) (h : l.length ≤ fuel) :
    replaceAux ['/'] ['_'] fuel l = l.map (fun c => if c = '/' then '_' else c) := by
  induction fuel generalizing l with
  | zero =>
    have hl : l = [] := List.length_eq_zero.mp (Nat.le_zero.mp h)
    subst hl
    rfl
  | succ n ih =>
    cases l with
    | nil => rfl
    | cons c rest =>
      have hrest : rest.length ≤ n := by
        simpa using Nat.le_of_succ_le_succ (by simpa using h)
      unfold replaceAux
      by_cases hc : c = '/'
      · subst hc
        rw [if_pos ⟨by simp, by simp [List.isPrefixOf]⟩]
        have hd : List.drop (List.length ['/'] - 1) rest = rest := rfl
        rw [hd, ih rest hrest]
        simp
      · rw [if_neg ?hnc]
        case hnc =>
          rintro ⟨-, hpre⟩
          simp [List.isPrefixOf] at hpre
          exact hc hpre.symm
        rw [ih rest hrest]
        simp [hc]

theorem strReplace_slash (s : String) :
    strReplace s "/" "_" =
      String.mk (s.toList.map (fun c => if c = '/' then '_' else c)) := by
  unfold strReplace replaceList
  have h1 : ("/" : String).toList = ['/'] := rfl
  have h2 : ("_" : String).toList = ['_'] := rfl
  rw [h1, h2, replaceAux_slash _ _ le_rfl]

/-- Claim C6: the store-key derivation agrees with the specified contract
(extension appended unless present, dotted join of bucket, prefix, name,
`/` replaced by `_`, `..` collapsed to `.`); it is a stable pure function of
(bucket, prefix, name, extension); a name already carrying the extension is
not extended again; concrete collapse and sanitization instances. -/
theorem claim_C6_store_key :
    (∀ (st : OmegaStore) (name ext : String),
       st.getObjStoreKey name ext = keySpec st.bucket st.pre name ext) ∧
    (∀ (st1 st2 : OmegaStore) (n1 n2 e1 e2 : String),
       st1.bucket = st2.bucket → st1.pre = st2.pre → n1 = n2 → e1 = e2 →
       st1.getObjStoreKey n1 e1 = st2.getObjStoreKey n2 e2) ∧
    (∀ (st : OmegaStore) (name ext : String), pyEndsWith name ext = true →
       st.getObjStoreKey name ext =
         strReplace (strReplace (st.bucket ++ "." ++ st.pre ++ "." ++ name) "/" "_")
           ".." ".") ∧
    sampleStore.getObjStoreKey "foo" ".hdf" = "store.foo.hdf" ∧
    sampleStore.getObjStoreKey "foo.hdf" ".hdf" = "store.foo.hdf" ∧
    sampleStore.getObjStoreKey "models/foo" ".hdf" = "store.models_foo.hdf" := by
  refine ⟨?_, ?_, ?_, by decide, by decide, by decide⟩
  · intro st name ext
    simp only [OmegaStore.getObjStoreKey, keySpec]
    rw [strReplace_slash]
  · intro st1 st2 n1 n2 e1 e2 hb hp hn he
    simp only [OmegaStore.getObjStoreKey]
    rw [hb, hp, hn, he]
  · intro st name ext h
    simp only [OmegaStore.getObjStoreKey]
    rw [if_pos h]

/-- Witness for C6: the no-duplication branch at a concrete name already
ending in the extension. -/
theorem claim_C6_witness :
    sampleStore.getObjStoreKey "foo.hdf" ".hdf" =
      strReplace (strReplace ("store" ++ "." ++ "" ++ "." ++ "foo.hdf") "/" "_")
        ".." "." :=
  claim_C6_store_key.2.2.1 sampleStore "foo.hdf" ".hdf" (by decide)

/-- Claim C10: grouped-document retrieval needs a non-empty backing
collection — on an empty one the sample-document lookup yields nothing and
the operation fails (attribute error on `None`), it does not return an empty
table; with at least one stored document the filter translation is defined
and retrieval succeeds, keeping group-key fields at the top level and
prefixing every other field with `_data.`. -/
theorem claim_C10_dfgroup_requires_sample :
    (∀ (st : OmegaStore) (db : DBState) (name : String)
       (kwargs : Option (List (String × PyVal))),
       getColl db (st.collectionName name) = [] →
       st.get_dataframe_dfgroup db name kwargs = .error .attrErr) ∧
    (∀ (st : OmegaStore) (db : DBState) (name : String)
       (kwargs : Option (List (String × PyVal))) (d : Doc) (rest : List Doc),
       getColl db (st.collectionName name) = d :: rest →
       ∃ rows, st.get_dataframe_dfgroup db name kwargs = .ok rows) ∧
    (∀ (kwargs : List (String × PyVal)) (d : Doc) (rest : List Doc),
       OmegaStore.rebuild_params kwargs (d :: rest) =
         .ok (kwargs.map (fun p =>
           if ((docKeys d.data).filter (fun c => c ≠ "_data")).contains p.1 then p
           else ("_data." ++ p.1, p.2)))) ∧
    (∀ (kwargs params : List (String × PyVal)) (d : Doc) (rest : List Doc)
       (k : String) (v : PyVal),
       OmegaStore.rebuild_params kwargs (d :: rest) = .ok params →
       (k, v) ∈ kwargs →
       ((((docKeys d.data).filter (fun c => c ≠ "_data")).contains k = true →
           (k, v) ∈ params) ∧
        (((docKeys d.data).filter (fun c => c ≠ "_data")).contains k = false →
           ("_data." ++ k, v) ∈ params))) := by
  refine ⟨?_, ?_, ?_, ?_⟩
  · intro st db name kwargs h
    unfold OmegaStore.get_dataframe_dfgroup
    rw [h]
    rfl
  · intro st db name kwargs d rest h
    unfold OmegaStore.get_dataframe_dfgroup
    rw [h]
    exact ⟨_, rfl⟩
  · intro kwargs d rest
    rfl
  · intro kwargs params d rest k v h hmem
    have hparams : params = kwargs.map (fun p =>
        if ((docKeys d.data).filter (fun c => c ≠ "_data")).contains p.1 then p
        else ("_data." ++ p.1, p.2)) := by
      have h2 := h
      unfold OmegaStore.rebuild_params at h2
      simp only [List.head?] at h2
      exact (Except.ok.inj h2).symm
    subst hparams
    constructor
    · intro hc
      refine List.mem_map.mpr ⟨(k, v), hmem, ?_⟩
      show (if ((docKeys d.data).filter (fun c => c ≠ "_data")).contains (k, v).1
            then (k, v) else ("_data." ++ (k, v).1, (k, v).2)) = (k, v)
      rw [if_pos (show _ = true from hc)]
    · intro hc
      refine List.mem_map.mpr ⟨(k, v), hmem, ?_⟩
      show (if ((docKeys d.data).filter (fun c => c ≠ "_data")).contains (k, v).1
            then (k, v) else ("_data." ++ (k, v).1, (k, v).2)) = ("_data." ++ k, v)
      rw [if_neg (fun hcc => by
        have hc2 : ¬ (k ∈ docKeys d.data ∧ ¬ k = "_data") := by simpa using hc
        exact hc2 (by simpa using hcc))]

/-- Witness for C10: on the one-group-document collection retrieval succeeds
and translates the filter; on the empty database it errors. -/
theorem claim_C10_witness :
    sampleStore.get_dataframe_dfgroup ({} : DBState) "w" none = .error .attrErr ∧
    (∃ rows, sampleStore.get_dataframe_dfgroup c10db "w"
      (some [("g", .num 1), ("x", .num 9)]) = .ok rows) ∧
    OmegaStore.rebuild_params [("g", .num 1), ("x", .num 9)] [⟨0, gdoc⟩] =
      .ok [("g", .num 1), ("_data.x", .num 9)] :=
  ⟨claim_C10_dfgroup_requires_sample.1 sampleStore {} "w" none rfl,
   claim_C10_dfgroup_requires_sample.2.1 sampleStore c10db "w"
     (some [("g", .num 1), ("x", .num 9)]) ⟨0, gdoc⟩ [] rfl,
   claim_C10_dfgroup_requires_sample.2.2.1 [("g", .num 1), ("x", .num 9)]
     ⟨0, gdoc⟩ []⟩

/-- Claim C8: `list` enumerates the catalog records of the caller's
(bucket, prefix) scope, optionally restricted to the given kind(s); the
regular expression takes precedence over the glob pattern when both are
given; every returned non-raw name has the `.omm` suffix stripped and comes
from a catalog record; `_temp`-prefixed names are excluded unless
`include_temp` is set; and the concrete glob example returns exactly
`['abc','abd']`. -/
theorem claim_C8_list :
    (∀ (st : OmegaStore) (db : DBState) (it : Bool)
       (rmatch : String → String → Bool), st.force_kind = none →
       st.list db none none none true it rmatch =
         .metas (db.catalog.filter
           (fun m => m.bucket == st.bucket && m.pre == st.pre))) ∧
    (∀ (st : OmegaStore) (db : DBState) (sel : KindSel) (it : Bool)
       (rmatch : String → String → Bool),
       kindSelTruthy (some sel) = true →
       st.list db none none (some sel) true it rmatch =
         .metas (db.catalog.filter
           (fun m => m.bucket == st.bucket && m.pre == st.pre &&
             kindSelMatch sel m.kind))) ∧
    (∀ (st : OmegaStore) (db : DBState) (p r : String) (kind : Option KindSel)
       (raw it : Bool) (rmatch : String → String → Bool),
       truthyStrOpt (some r) = true →
       st.list db (some p) (some r) kind raw it rmatch =
         st.list db none (some r) kind raw it rmatch) ∧
    (∀ (st : OmegaStore) (db : DBState) (pat re : Option String)
       (kind : Option KindSel) (rmatch : String → String → Bool) (f : String),
       f ∈ namesOf (st.list db pat re kind false false rmatch) →
       pyStartsWith f "_temp" = false) ∧
    (∀ (st : OmegaStore) (db : DBState) (pat re : Option String)
       (kind : Option KindSel) (it : Bool) (rmatch : String → String → Bool)
       (f : String),
       f ∈ namesOf (st.list db pat re kind false it rmatch) →
       ∃ m ∈ db.catalog, f = strReplace m.name ".omm" "") ∧
    sampleStore.list c8db (some "a*") none none false false (fun _ _ => false) =
      .names ["abc", "abd"] ∧
    sampleStore.list c8db none none none false false (fun _ _ => false) =
      .names ["abc", "abd", "zzz"] ∧
    sampleStore.list c8db none none none false true (fun _ _ => false) =
      .names ["abc", "abd", "zzz", "_tempq"] := by
  refine ⟨?_, ?_, ?_, ?_, ?_, rfl, rfl, rfl⟩
  · intro st db it rmatch hfk
    simp [OmegaStore.list, hfk, kindSelTruthy, truthyStrOpt]
  · intro st db sel it rmatch hsel
    simp [OmegaStore.list, hsel, truthyStrOpt]
  · intro st db p r kind raw it rmatch hr
    simp only [OmegaStore.list, hr, if_true]
  · intro st db pat re kind rmatch f h
    simp only [OmegaStore.list, namesOf, Bool.false_eq_true, if_false] at h
    have h2 := (List.mem_filter.mp h).2
    simpa using h2
  · intro st db pat re kind it rmatch f h
    simp only [OmegaStore.list, namesOf] at h
    have h3 : f ∈ ((if truthyStrOpt re = true then
          (db.catalog.filter (fun m =>
            m.bucket == st.bucket && m.pre == st.pre &&
              (match (if kindSelTruthy kind ∨ kindSelTruthy st.force_kind then
                        (if kindSelTruthy kind then kind else st.force_kind)
                      else none) with
               | none => true
               | some s => kindSelMatch s m.kind))).map (fun m => m.name)
            |>.filter (fun g => rmatch (re.getD "") g)
        else if truthyStrOpt pat = true then
          (db.catalog.filter (fun m =>
            m.bucket == st.bucket && m.pre == st.pre &&
              (match (if kindSelTruthy kind ∨ kindSelTruthy st.force_kind then
                        (if kindSelTruthy kind then kind else st.force_kind)
                      else none) with
               | none => true
               | some s => kindSelMatch s m.kind))).map (fun m => m.name)
            |>.filter (fun g => fnmatch g (pat.getD ""))
        else
          (db.catalog.filter (fun m =>
            m.bucket == st.bucket && m.pre == st.pre &&
              (match (if kindSelTruthy kind ∨ kindSelTruthy st.force_kind then
                        (if kindSelTruthy kind then kind else st.force_kind)
                      else none) with
               | none => true
               | some s => kindSelMatch s m.kind))).map (fun m => m.name)).map
        (fun g => strReplace g ".omm" "")) := by
      by_cases hit : it = true
      · simpa [hit] using h
      · simp only [hit, if_false] at h
        exact (List.mem_filter.mp h).1
    obtain ⟨g, hg, hfg⟩ := List.mem_map.mp h3
    have hg1 : g ∈ (db.catalog.filter (fun m =>
        m.bucket == st.bucket && m.pre == st.pre &&
          (match (if kindSelTruthy kind ∨ kindSelTruthy st.force_kind then
                    (if kindSelTruthy kind then kind else st.force_kind)
                  else none) with
           | none => true
           | some s => kindSelMatch s m.kind))).map (fun m => m.name) := by
      by_cases hre : truthyStrOpt re = true
      · simp only [hre, if_true] at hg
        exact List.mem_of_mem_filter hg
      · simp only [hre, if_false] at hg
        by_cases hpat : truthyStrOpt pat = true
        · simp only [hpat, if_true] at hg
          exact List.mem_of_mem_filter hg
        · simpa only [hpat, if_false] using hg
    obtain ⟨m, hm, hmn⟩ := List.mem_map.mp hg1
    exact ⟨m, List.mem_of_mem_filter hm, by rw [← hfg, hmn]⟩

/-- Witness for C8: the regular expression (here a matcher selecting names
starting with `a`) takes precedence over a glob pattern that matches
nothing. -/
theorem claim_C8_witness :
    sampleStore.list c8db (some "zz*") (some "a.*") none false false
      (fun _ s => pyStartsWith s "a") =
    sampleStore.list c8db none (some "a.*") none false false
      (fun _ s => pyStartsWith s "a") :=
  claim_C8_list.2.2.1 sampleStore c8db "zz*" "a.*" none false false
    (fun _ s => pyStartsWith s "a") (by decide)

theorem pyOr_self (s : String) : pyOr (some s) s = s := by
  show (if s = "" then s else s) = s
  split <;> rfl

theorem metadata_none_args (st : OmegaStore) (db : DBState) (name : String) :
    st.metadata db name none none = db.catalog.find? (tripleMatch st name) := rfl

theorem metadata_some_args (st : OmegaStore) (db : DBState) (name : String) :
    st.metadata db name (some st.bucket) (some st.pre) =
      db.catalog.find? (tripleMatch st name) := by
  simp only [OmegaStore.metadata, pyOr_self]
  rfl

theorem applyMetaKwargs_mid (m : Metadata) (kw : MetaKwargs) :
    (applyMetaKwargs m kw).mid = m.mid := rfl

theorem tripleMatch_applyMetaKwargs (st : OmegaStore) (name : String)
    (m : Metadata) (kw : MetaKwargs) :
    tripleMatch st name (applyMetaKwargs m kw) = tripleMatch st name m := rfl

theorem make_metadata_found (st : OmegaStore) (db : DBState) (name : String)
    (kw : MetaKwargs) (m0 : Metadata)
    (h : db.catalog.find? (tripleMatch st name) = some m0) :
    st._make_metadata db name (some st.bucket) (some st.pre) kw =
      applyMetaKwargs m0 kw := by
  simp only [OmegaStore._make_metadata, pyOr_self, metadata_some_args, h]

theorem make_metadata_missing (st : OmegaStore) (db : DBState) (name : String)
    (kw : MetaKwargs)
    (h : db.catalog.find? (tripleMatch st name) = none) :
    st._make_metadata db name (some st.bucket) (some st.pre) kw =
      { mid := none, name := name, bucket := st.bucket, pre := st.pre,
        kind := kw.kind, kindMeta := kw.kindMeta,
        attributes := kw.attributes.getD [],
        collection := kw.collection, gridfile := kw.gridfile,
        objid := kw.objid } := by
  simp only [OmegaStore._make_metadata, pyOr_self, metadata_some_args, h]

theorem saveMeta_insert (db : DBState) (m : Metadata) (h : m.mid = none) :
    (saveMeta db m).1.catalog =
      db.catalog ++ [{ m with mid := some db.nextId }] ∧
    (saveMeta db m).2 = { m with mid := some db.nextId } := by
  unfold saveMeta
  rw [h]
  exact ⟨rfl, rfl⟩

theorem saveMeta_update (db : DBState) (m : Metadata) (i : Nat) (h : m.mid = some i) :
    (saveMeta db m).1.catalog =
      db.catalog.map (fun r => if r.mid == some i then m else r) ∧
    (saveMeta db m).2 = m := by
  unfold saveMeta
  rw [h]
  exact ⟨rfl, rfl⟩

theorem saveMeta_snd_attributes (db : DBState) (m : Metadata) :
    (saveMeta db m).2.attributes = m.attributes := by
  unfold saveMeta
  cases m.mid <;> rfl

theorem list_map_id_of {α : Type} (l : List α) (f : α → α)
    (h : ∀ a ∈ l, f a = a) : l.map f = l := by
  induction l with
  | nil => rfl
  | cons a tl ih =>
    simp only [List.map_cons]
    rw [h a (List.mem_cons_self a tl),
      ih (fun b hb => h b (List.mem_cons_of_mem a hb))]

theorem find?_append_last {α : Type} (l : List α) (x : α) (p : α → Bool)
    (hl : ∀ y ∈ l, ¬ (p y = true)) (hx : p x = true) :
    (l ++ [x]).find? p = some x := by
  induction l with
  | nil => simp [List.find?, hx]
  | cons a tl ih =>
    rw [List.cons_append,
      List.find?_cons_of_neg _ (by exact hl a (List.mem_cons_self a tl))]
    exact ih (fun y hy => hl y (List.mem_cons_of_mem a hy))

theorem insertMany_catalog (db : DBState) (c : String) (docs : List PyVal) :
    (insertMany db c docs).catalog = db.catalog := by
  induction docs generalizing db with
  | nil => rfl
  | cons v tv ih => simpa using ih (insertDoc db c v).1

theorem fastInsert_catalog (db : DBState) (c : String)
    (rows : List (List (String × PyVal))) :
    (fastInsert db c rows).catalog = db.catalog :=
  insertMany_catalog db c (rows.map PyVal.dict)

/-- Claim C7: two metadata upserts (the `_make_metadata(...).save()` step of
every put) for one (name, bucket, prefix) triple leave exactly one catalog
record for that triple — the second retrieves and updates the first in place
(the catalog does not grow) — the exact-match lookup only ever returns
records of the triple, and the concrete double-put scenario ends with a
one-record catalog. -/
theorem claim_C7_triple_unique (st : OmegaStore) (db0 : DBState) (name : String)
    (kw1 kw2 : MetaKwargs) (hwf : midsOk db0)
    (h0 : tripleCount db0 name st.bucket st.pre = 0) :
    tripleCount (makeAndSave st db0 name kw1).1 name st.bucket st.pre = 1 ∧
    tripleCount (makeAndSave st (makeAndSave st db0 name kw1).1 name kw2).1
      name st.bucket st.pre = 1 ∧
    (makeAndSave st (makeAndSave st db0 name kw1).1 name kw2).1.catalog.length =
      (makeAndSave st db0 name kw1).1.catalog.length ∧
    (∀ (db : DBState) (n : String) (m : Metadata),
       st.metadata db n none none = some m → tripleMatch st n m = true) ∧
    (putDB c1r2).catalog.length = 1 := by
  have hnil : db0.catalog.filter (tripleMatch st name) = [] :=
    List.length_eq_zero.mp h0
  have hnomatch : ∀ y ∈ db0.catalog, ¬ (tripleMatch st name y = true) := by
    intro y hy hp
    have hmem : y ∈ db0.catalog.filter (tripleMatch st name) :=
      List.mem_filter.mpr ⟨hy, hp⟩
    rw [hnil] at hmem
    cases hmem
  have hfind0 : db0.catalog.find? (tripleMatch st name) = none :=
    List.find?_eq_none.mpr hnomatch
  have hmk1 := make_metadata_missing st db0 name kw1 hfind0
  have hdb1cat : (makeAndSave st db0 name kw1).1.catalog = db0.catalog ++
      [{ mid := some db0.nextId, name := name, bucket := st.bucket, pre := st.pre,
         kind := kw1.kind, kindMeta := kw1.kindMeta,
         attributes := kw1.attributes.getD [],
         collection := kw1.collection, gridfile := kw1.gridfile,
         objid := kw1.objid }] := by
    show (saveMeta db0
      (st._make_metadata db0 name (some st.bucket) (some st.pre) kw1)).1.catalog = _
    rw [hmk1]
    exact (saveMeta_insert db0 _ rfl).1
  have htm1 : tripleMatch st name
      ({ mid := some db0.nextId, name := name, bucket := st.bucket, pre := st.pre,
         kind := kw1.kind, kindMeta := kw1.kindMeta,
         attributes := kw1.attributes.getD [],
         collection := kw1.collection, gridfile := kw1.gridfile,
         objid := kw1.objid } : Metadata) = true := by
    simp [tripleMatch]
  have hcount1 : tripleCount (makeAndSave st db0 name kw1).1
      name st.bucket st.pre = 1 := by
    show ((makeAndSave st db0 name kw1).1.catalog.filter
      (tripleMatch st name)).length = 1
    rw [hdb1cat, List.filter_append, hnil]
    simp [htm1]
  have hfind1 : (makeAndSave st db0 name kw1).1.catalog.find?
      (tripleMatch st name) = some
      { mid := some db0.nextId, name := name, bucket := st.bucket, pre := st.pre,
        kind := kw1.kind, kindMeta := kw1.kindMeta,
        attributes := kw1.attributes.getD [],
        collection := kw1.collection, gridfile := kw1.gridfile,
        objid := kw1.objid } := by
    rw [hdb1cat]
    exact find?_append_last _ _ _ hnomatch htm1
  have hmk2 := make_metadata_found st (makeAndSave st db0 name kw1).1 name kw2 _ hfind1
  have hdb2cat : (makeAndSave st (makeAndSave st db0 name kw1).1 name kw2).1.catalog =
      (makeAndSave st db0 name kw1).1.catalog.map
        (fun r => if r.mid == some db0.nextId then
          applyMetaKwargs
            { mid := some db0.nextId, name := name, bucket := st.bucket,
              pre := st.pre, kind := kw1.kind, kindMeta := kw1.kindMeta,
              attributes := kw1.attributes.getD [],
              collection := kw1.collection, gridfile := kw1.gridfile,
              objid := kw1.objid } kw2
          else r) := by
    show (saveMeta (makeAndSave st db0 name kw1).1
      (st._make_metadata (makeAndSave st db0 name kw1).1 name
        (some st.bucket) (some st.pre) kw2)).1.catalog = _
    rw [hmk2]
    exact (saveMeta_update _ _ db0.nextId rfl).1
  have hmapid : db0.catalog.map
      (fun r => if r.mid == some db0.nextId then
        applyMetaKwargs
          { mid := some db0.nextId, name := name, bucket := st.bucket,
            pre := st.pre, kind := kw1.kind, kindMeta := kw1.kindMeta,
            attributes := kw1.attributes.getD [],
            collection := kw1.collection, gridfile := kw1.gridfile,
            objid := kw1.objid } kw2
        else r) = db0.catalog := by
    apply list_map_id_of
    intro r hr
    obtain ⟨j, hj, hjlt⟩ := hwf.1 r hr
    rw [if_neg (by simp [hj, Option.some.injEq]; omega)]
  have hlen : (makeAndSave st (makeAndSave st db0 name kw1).1 name kw2).1.catalog.length =
      (makeAndSave st db0 name kw1).1.catalog.length := by
    rw [hdb2cat, List.length_map]
  refine ⟨hcount1, ?_, hlen, ?_, rfl⟩
  · show ((makeAndSave st (makeAndSave st db0 name kw1).1 name kw2).1.catalog.filter
      (tripleMatch st name)).length = 1
    rw [hdb2cat, hdb1cat, List.map_append, hmapid]
    rw [List.filter_append, hnil]
    have htm2 : tripleMatch st name
        (applyMetaKwargs
          { mid := some db0.nextId, name := name, bucket := st.bucket,
            pre := st.pre, kind := kw1.kind, kindMeta := kw1.kindMeta,
            attributes := kw1.attributes.getD [],
            collection := kw1.collection, gridfile := kw1.gridfile,
            objid := kw1.objid } kw2) = true := by
      rw [tripleMatch_applyMetaKwargs]
      exact htm1
    simp [htm2]
  · intro db n m h
    rw [metadata_none_args] at h
    exact List.find?_some h

/-- Witness for C7: the upsert pair at a concrete store and empty catalog,
and the concrete double put. -/
theorem claim_C7_witness :
    tripleCount (makeAndSave sampleStore
      (makeAndSave sampleStore ({} : DBState) "x" { kind := some .pythonData }).1
      "x" { kind := some .pythonData }).1 "x" "store" "" = 1 :=
  (claim_C7_triple_unique sampleStore {} "x" { kind := some .pythonData }
    { kind := some .pythonData }
    ⟨fun m hm => absurd hm (List.not_mem_nil m), List.Pairwise.nil⟩ rfl).2.1

/-- Claim C9: the `append=False` row-document path calls
`self.drop(name, force=True)`, which raises `NotImplementedError` at the
pymongo collection truth test before deleting the prior record or writing
anything — the put aborts for every input, so the claimed attribute reset is
unreachable; by contrast the default path (no `append`) proceeds and merges
the supplied attributes into the existing record's. -/
theorem claim_C9_append_false_raises :
    (∀ (st : OmegaStore) (db : DBState) (df : DataFrame) (ser : Bool)
       (name : String) (attrs : Option Attrs),
       st.put_dataframe_as_documents db df ser name (some false) attrs =
         .error .notImplementedErr) ∧
    sampleStore.put_dataframe_as_documents c9db dfA false "d" (some false)
      (some [("b", .num 2)]) = .error .notImplementedErr ∧
    (match sampleStore.put_dataframe_as_documents c9db dfA false "d" none
        (some [("b", .num 2)]) with
     | .ok r => some r.2.attributes
     | .error _ => none) =
      some [("a", PyVal.num 1), ("b", PyVal.num 2)] :=
  ⟨fun st db df ser name attrs => rfl, rfl, rfl⟩

end OmegaML
